import Mathlib

/-!
Shallow embedding of the DynamicsSim core (src/include/physics.hpp,
src/lib/physics.cpp): the polymorphic force abstraction, the composite
force aggregator, and the three integrator step functions of namespace
Propagation.

Modelling conventions:
* glm::vec3 of floats is embedded as a triple of rationals; float
  rounding is out of scope, the claims under scrutiny are structural.
* glm componentwise operators map to Vec3.add / Vec3.sub / Vec3.scale
  (vector times scalar) / Vec3.divS (vector divided by scalar).
* C++ object identity (the pointers stored by CompositeForce) is
  modelled by natural-number addresses; an environment of type
  Nat to Force gives the force object living at each address.
* The abstract base class Physics::Force becomes a structure bundling
  the two virtual methods.
* The function-local `static` variables of Propagation::rungeKutta4
  carry state between calls.  The arrays kx, kv are fully overwritten
  before being read on every call, so they carry no observable state;
  the variable `force`, whose declaration carries an initializer that
  C++ runs only on the very first call, does.  The embedding threads
  that cell explicitly: RK4Statics.forceCell is `none` while the
  initializer has not run yet, `some v` once the static holds `v`.
-/

/-- Embeds glm::vec3 (components as exact rationals). -/
structure Vec3 where
  x : ℚ
  y : ℚ
  z : ℚ
  deriving DecidableEq, Repr

/-- Embeds glm::vec3(0.0f). -/
def Vec3.zero : Vec3 := ⟨0, 0, 0⟩

/-- Embeds componentwise vector addition. -/
def Vec3.add (a b : Vec3) : Vec3 := ⟨a.x + b.x, a.y + b.y, a.z + b.z⟩

/-- Embeds componentwise vector subtraction. -/
def Vec3.sub (a b : Vec3) : Vec3 := ⟨a.x - b.x, a.y - b.y, a.z - b.z⟩

/-- Embeds vector times scalar (glm `v * s`, also scalar times vector). -/
def Vec3.scale (v : Vec3) (s : ℚ) : Vec3 := ⟨v.x * s, v.y * s, v.z * s⟩

/-- Embeds vector divided by scalar (glm `v / s`). -/
def Vec3.divS (v : Vec3) (s : ℚ) : Vec3 := ⟨v.x / s, v.y / s, v.z / s⟩

/-- Embeds glm::dot. -/
def Vec3.dot (a b : Vec3) : ℚ := a.x * b.x + a.y * b.y + a.z * b.z

instance : Add Vec3 := ⟨Vec3.add⟩
instance : Sub Vec3 := ⟨Vec3.sub⟩

@[simp] theorem Vec3.add_def (a b : Vec3) :
    a + b = ⟨a.x + b.x, a.y + b.y, a.z + b.z⟩ := rfl

@[simp] theorem Vec3.sub_def (a b : Vec3) :
    a - b = ⟨a.x - b.x, a.y - b.y, a.z - b.z⟩ := rfl

@[simp] theorem Vec3.scale_def (v : Vec3) (s : ℚ) :
    v.scale s = ⟨v.x * s, v.y * s, v.z * s⟩ := rfl

@[simp] theorem Vec3.divS_def (v : Vec3) (s : ℚ) :
    v.divS s = ⟨v.x / s, v.y / s, v.z / s⟩ := rfl

namespace Physics

/-- Embeds the abstract base class Physics::Force: a bundle of the two
pure virtual evaluation methods. -/
structure Force where
  computeForce : Vec3 → Vec3 → ℚ → Vec3
  computeEnergy : Vec3 → Vec3 → ℚ → ℚ

/-- Embeds Physics::CompositeForce's private member
`std::vector<const Force*> forces`: the list of addresses of the
registered force objects, in registration order. -/
structure CompositeForce where
  forces : List ℕ
  deriving DecidableEq, Repr

/-- Embeds CompositeForce::addForce: `forces.push_back(&force)`. -/
def CompositeForce.addForce (c : CompositeForce) (p : ℕ) : CompositeForce :=
  ⟨c.forces ++ [p]⟩

/-- Embeds the loop body of CompositeForce::removeForce: scan the vector
from the front and erase the first element equal to the given address,
then break; a missing address leaves the vector unchanged. -/
def removeFirst : List ℕ → ℕ → List ℕ
  | [], _ => []
  | q :: rest, p => if q = p then rest else q :: removeFirst rest p

/-- Embeds CompositeForce::removeForce. -/
def CompositeForce.removeForce (c : CompositeForce) (p : ℕ) : CompositeForce :=
  ⟨removeFirst c.forces p⟩

/-- Embeds CompositeForce::computeForce: accumulate
`totalForce += force->computeForce(position, velocity, time)` over the
registered members, starting from glm::vec3(0.0f). -/
def CompositeForce.computeForce (env : ℕ → Force) (c : CompositeForce)
    (position velocity : Vec3) (time : ℚ) : Vec3 :=
  c.forces.foldl
    (fun totalForce p => totalForce + (env p).computeForce position velocity time)
    Vec3.zero

/-- Embeds CompositeForce::computeEnergy: accumulate
`totalEnergy += force->computeEnergy(position, velocity, time)` over the
registered members, starting from 0.0f. -/
def CompositeForce.computeEnergy (env : ℕ → Force) (c : CompositeForce)
    (position velocity : Vec3) (time : ℚ) : ℚ :=
  c.forces.foldl
    (fun totalEnergy p => totalEnergy + (env p).computeEnergy position velocity time)
    0

/-- Embeds the constant `g = 9.806f` of physics.hpp. -/
def g : ℚ := 9.806

/-- Embeds the constant `G = 6.67430e-11f` of physics.hpp. -/
def G : ℚ := 6.67430e-11

/-- Embeds the constant `epsilon_0 = 8.854187817e-12f` of physics.hpp. -/
def epsilon_0 : ℚ := 8.854187817e-12

/-- Embeds the constant `k_e = 1.0f / (4.0f * M_PI * epsilon_0)` of
physics.hpp, with M_PI replaced by the rational value of the double
literal it expands to (float rounding of the constants is irrelevant to
the claims, which never depend on the numeric value of k_e). -/
def k_e : ℚ := 1 / (4 * 3.14159265358979323846 * epsilon_0)

/-- Embeds the private members of Physics::ElectricForce. -/
structure ElectricForce where
  charge_1 : ℚ
  charge_2 : ℚ
  anchorPoint : Vec3
  deriving DecidableEq, Repr

/-- Embeds ElectricForce::computeForce:
`-k_e * charge_1 * charge_2 / pow(glm::length(position - anchorPoint), 3)
* (position - anchorPoint)`.
glm::length is an irrational square root, so it is passed in as the
parameter `len` (constrained where needed by `len v = 0` iff `v = 0`,
which exact square roots satisfy).  When the divisor
`pow(length r, 3)` is zero the float division produces non-finite
NaN/Inf components — the embedding returns `none` there; everywhere
else the code returns the finite vector, embedded componentwise. -/
def ElectricForce.computeForce (len : Vec3 → ℚ) (f : ElectricForce)
    (position velocity : Vec3) (time : ℚ) : Option Vec3 :=
  let r := position - f.anchorPoint
  if (len r) ^ 3 = 0 then none
  else some (r.scale (-k_e * f.charge_1 * f.charge_2 / (len r) ^ 3))

/-- Embeds the private members of Physics::GravitationalForce. -/
structure GravitationalForce where
  mass_1 : ℚ
  mass_2 : ℚ
  anchorPoint : Vec3
  deriving DecidableEq, Repr

/-- Embeds GravitationalForce::computeForce:
`-G * mass_1 * mass_2 / pow(glm::length(position - anchorPoint), 3)
* (position - anchorPoint)`, with the same conventions as
ElectricForce.computeForce: `len` stands for glm::length and `none`
marks the non-finite result of dividing by a zero length cubed. -/
def GravitationalForce.computeForce (len : Vec3 → ℚ) (f : GravitationalForce)
    (position velocity : Vec3) (time : ℚ) : Option Vec3 :=
  let r := position - f.anchorPoint
  if (len r) ^ 3 = 0 then none
  else some (r.scale (-G * f.mass_1 * f.mass_2 / (len r) ^ 3))

end Physics

namespace Propagation

/-- Embeds Propagation::generalizedVector. -/
structure generalizedVector where
  position : Vec3
  velocity : Vec3
  deriving DecidableEq, Repr

/-- Embeds Propagation::explicitEuler. -/
def explicitEuler (f : Physics.Force) (state : generalizedVector)
    (mass currentTime deltaTime : ℚ) : generalizedVector :=
  let force := f.computeForce state.position state.velocity currentTime
  { position := state.position + state.velocity.scale deltaTime
    velocity := state.velocity + (force.divS mass).scale deltaTime }

/-- Embeds the function-local `static glm::vec3 force` of
Propagation::rungeKutta4: `none` while its once-only initializer has not
run, `some v` once the static variable holds `v`. -/
structure RK4Statics where
  forceCell : Option Vec3
  deriving DecidableEq, Repr

/-- Embeds Propagation::rungeKutta4, threading the `static glm::vec3
force` cell explicitly.  The declaration `static glm::vec3 force =
f->computeForce(state.position, kx[0], currentTime)` runs its
initializer only on the first call; on every later call the stage-0
force is whatever the static still holds from the end of the previous
call (the stage-3 force computed there).  The static arrays kx, kv are
fully assigned before use on each call and so need no threading. -/
def rungeKutta4 (f : Physics.Force) (state : generalizedVector)
    (mass currentTime deltaTime : ℚ) (statics : RK4Statics) :
    generalizedVector × RK4Statics :=
  let kx0 := state.velocity
  let force0 :=
    match statics.forceCell with
    | none => f.computeForce state.position kx0 currentTime
    | some prev => prev
  let kv0 := force0.divS mass
  let kx1 := state.velocity + kv0.scale (deltaTime / 2)
  let force1 := f.computeForce (state.position + kx0.scale (deltaTime / 2)) kx1
    (currentTime + deltaTime / 2)
  let kv1 := force1.divS mass
  let kx2 := state.velocity + kv1.scale (deltaTime / 2)
  let force2 := f.computeForce (state.position + kx1.scale (deltaTime / 2)) kx2
    (currentTime + deltaTime / 2)
  let kv2 := force2.divS mass
  let kx3 := state.velocity + kv2.scale deltaTime
  let force3 := f.computeForce (state.position + kx2.scale deltaTime) kx3
    (currentTime + deltaTime)
  let kv3 := force3.divS mass
  ({ position := state.position +
       (kx0 + kx1.scale 2 + kx2.scale 2 + kx3).scale (deltaTime / 6)
     velocity := state.velocity +
       (kv0 + kv1.scale 2 + kv2.scale 2 + kv3).scale (deltaTime / 6) },
   ⟨some force3⟩)

/-- Embeds Propagation::simplecticEuler. -/
def simplecticEuler (f : Physics.Force) (state : generalizedVector)
    (mass currentTime deltaTime : ℚ) : generalizedVector :=
  let force := f.computeForce state.position state.velocity currentTime
  let newVelocity := state.velocity + (force.divS mass).scale deltaTime
  { position := state.position + newVelocity.scale deltaTime
    velocity := newVelocity }

/-- Modelled from the spec (section 4.3, RK4): the four-stage update
formula written exactly as the spec states it, used as the comparator
the code is checked against. -/
def rk4SpecStep (F : Vec3 → Vec3 → ℚ → Vec3) (state : generalizedVector)
    (mass t dt : ℚ) : generalizedVector :=
  let k0x := state.velocity
  let k0v := (F state.position state.velocity t).divS mass
  let k1x := state.velocity + k0v.scale (dt / 2)
  let k1v := (F (state.position + k0x.scale (dt / 2))
    (state.velocity + k0v.scale (dt / 2)) (t + dt / 2)).divS mass
  let k2x := state.velocity + k1v.scale (dt / 2)
  let k2v := (F (state.position + k1x.scale (dt / 2))
    (state.velocity + k1v.scale (dt / 2)) (t + dt / 2)).divS mass
  let k3x := state.velocity + k2v.scale dt
  let k3v := (F (state.position + k2x.scale dt)
    (state.velocity + k2v.scale dt) (t + dt)).divS mass
  { position := state.position +
      (k0x + k1x.scale 2 + k2x.scale 2 + k3x).scale (dt / 6)
    velocity := state.velocity +
      (k0v + k1v.scale 2 + k2v.scale 2 + k3v).scale (dt / 6) }

end Propagation

/-- A force object returning the constant vector `w` (the shape of
Physics::EarthGravitationalForce: state-independent). -/
def constForce (w : Vec3) : Physics.Force :=
  { computeForce := fun _ _ _ => w
    computeEnergy := fun _ _ _ => 0 }

/-- A force object with the shape of Physics::HookeForce at spring
constant 1 and anchor at the origin: force `-position`, energy
`|position|^2 / 2`.  Position-dependent, which makes stale force values
observable. -/
def hookeUnitForce : Physics.Force :=
  { computeForce := fun position _ _ => position.scale (-1)
    computeEnergy := fun position _ _ => position.dot position / 2 }

/-- A two-object heap for the composite-force claims: address 0 holds a
constant unit force along x, address 1 a constant unit force along y
(with distinct energies so energy sums are discriminating too). -/
def envTwo : ℕ → Physics.Force :=
  fun p => if p = 0 then
    { computeForce := fun _ _ _ => ⟨1, 0, 0⟩, computeEnergy := fun _ _ _ => 1 }
  else
    { computeForce := fun _ _ _ => ⟨0, 1, 0⟩, computeEnergy := fun _ _ _ => 2 }

theorem Vec3.add_zero (v : Vec3) : v + Vec3.zero = v := by
  cases v; simp [Vec3.zero]

theorem Vec3.zero_add (v : Vec3) : Vec3.zero + v = v := by
  cases v; simp [Vec3.zero]

theorem Vec3.add_assoc (a b c : Vec3) : a + b + c = a + (b + c) := by
  cases a; cases b; cases c; simp; exact ⟨by ring, by ring, by ring⟩

theorem Vec3.scale_zero (v : Vec3) : v.scale 0 = Vec3.zero := by
  cases v; simp [Vec3.zero]

theorem Vec3.zero_scale (s : ℚ) : Vec3.zero.scale s = Vec3.zero := by
  simp [Vec3.zero]

theorem Vec3.zero_divS (s : ℚ) : Vec3.zero.divS s = Vec3.zero := by
  simp [Vec3.zero]

theorem Vec3.add_scale (a b : Vec3) (s : ℚ) :
    (a + b).scale s = a.scale s + b.scale s := by
  cases a; cases b; simp; exact ⟨by ring, by ring, by ring⟩

theorem Vec3.scale_scale (v : Vec3) (s r : ℚ) :
    (v.scale s).scale r = v.scale (s * r) := by
  cases v; simp; exact ⟨by ring, by ring, by ring⟩

theorem Vec3.add_left_cancel {a u w : Vec3} (h : a + u = a + w) : u = w := by
  cases a; cases u; cases w
  simp at h ⊢
  exact ⟨by linarith [h.1], by linarith [h.2.1], by linarith [h.2.2]⟩

theorem Vec3.sub_self (v : Vec3) : v - v = Vec3.zero := by
  cases v; simp [Vec3.zero]

theorem Vec3.sub_eq_zero_iff (a b : Vec3) : a - b = Vec3.zero ↔ a = b := by
  cases a; cases b
  simp [Vec3.zero]
  constructor
  · rintro ⟨h1, h2, h3⟩; exact ⟨by linarith, by linarith, by linarith⟩
  · rintro ⟨h1, h2, h3⟩; exact ⟨by linarith, by linarith, by linarith⟩

theorem Vec3.scale_eq_zero_iff (v : Vec3) (s : ℚ) (hs : s ≠ 0) :
    v.scale s = Vec3.zero ↔ v = Vec3.zero := by
  cases v
  simp [Vec3.zero, mul_eq_zero, hs]

theorem Vec3.divS_eq_zero_iff (v : Vec3) (s : ℚ) (hs : s ≠ 0) :
    v.divS s = Vec3.zero ↔ v = Vec3.zero := by
  cases v
  simp [Vec3.zero, div_eq_zero_iff, hs]

open Propagation

/-- C1: rungeKutta4 produces the spec's four-stage RK4 state only while
the static force cell is fresh (the first call): for all arguments the
first call equals the spec formula, but a second call with the very same
arguments — where C++ skips the once-only initializer of
`static glm::vec3 force` and reuses the previous call's stage-3 force as
this call's stage-0 force — already differs from the formula, so not
every call evaluates the stage-0 force F(pos, vel, t). -/
theorem rungeKutta4_formula_only_on_first_call :
    (∀ (f : Physics.Force) (state : generalizedVector) (mass t dt : ℚ),
        (rungeKutta4 f state mass t dt ⟨none⟩).1
          = rk4SpecStep f.computeForce state mass t dt)
    ∧ (rungeKutta4 hookeUnitForce ⟨⟨1, 0, 0⟩, Vec3.zero⟩ 1 0 1
         (rungeKutta4 hookeUnitForce ⟨⟨1, 0, 0⟩, Vec3.zero⟩ 1 0 1 ⟨none⟩).2).1
        ≠ rk4SpecStep hookeUnitForce.computeForce ⟨⟨1, 0, 0⟩, Vec3.zero⟩ 1 0 1 := by
  constructor
  · intro f state mass t dt
    rfl
  · norm_num [rungeKutta4, rk4SpecStep, hookeUnitForce, Vec3.zero]

/-- C2: rungeKutta4 is not a pure function of its arguments: two
invocations with identical force, state, mass, time and dt arguments
return different states when a call with a different state happened in
between, because the function-local `static glm::vec3 force` carries the
interposed call's stage-3 force into the next call's stage 0. -/
theorem rungeKutta4_hidden_static_state :
    (rungeKutta4 hookeUnitForce ⟨⟨1, 0, 0⟩, Vec3.zero⟩ 1 0 1 ⟨none⟩).1
      ≠ (rungeKutta4 hookeUnitForce ⟨⟨1, 0, 0⟩, Vec3.zero⟩ 1 0 1
          (rungeKutta4 hookeUnitForce ⟨⟨3, 0, 0⟩, Vec3.zero⟩ 1 0 1
            (rungeKutta4 hookeUnitForce ⟨⟨1, 0, 0⟩, Vec3.zero⟩ 1 0 1 ⟨none⟩).2).2).1 := by
  norm_num [rungeKutta4, hookeUnitForce, Vec3.zero]

/-- C7: none of the integrator step functions contains a mass check —
called with mass = -1 each of them returns an ordinary stepped state
(the force divided by the negative mass) instead of raising an
InvalidMassError, which does not exist anywhere in the code. -/
theorem integrators_step_with_nonpositive_mass :
    explicitEuler (constForce ⟨1, 0, 0⟩) ⟨Vec3.zero, Vec3.zero⟩ (-1) 0 1
      = ⟨Vec3.zero, ⟨-1, 0, 0⟩⟩
    ∧ simplecticEuler (constForce ⟨1, 0, 0⟩) ⟨Vec3.zero, Vec3.zero⟩ (-1) 0 1
      = ⟨⟨-1, 0, 0⟩, ⟨-1, 0, 0⟩⟩
    ∧ (rungeKutta4 (constForce ⟨1, 0, 0⟩) ⟨Vec3.zero, Vec3.zero⟩ (-1) 0 1 ⟨none⟩).1
      = ⟨⟨-1/2, 0, 0⟩, ⟨-1, 0, 0⟩⟩ := by
  norm_num [explicitEuler, simplecticEuler, rungeKutta4, constForce, Vec3.zero]

/-- C6: under a force field evaluating to zero everywhere, explicitEuler
and simplecticEuler return identical next states; under the nonzero
constant force (2,0,0) with mass 2 and dt 3 they return different
states, the position components differing by exactly (F/m) dt^2. -/
theorem euler_variants_zero_force_agree_constant_force_diverge :
    (∀ (f : Physics.Force) (s : generalizedVector) (mass t dt : ℚ),
        (∀ p v τ, f.computeForce p v τ = Vec3.zero) →
        explicitEuler f s mass t dt = simplecticEuler f s mass t dt)
    ∧ explicitEuler (constForce ⟨2, 0, 0⟩) ⟨Vec3.zero, Vec3.zero⟩ 2 0 3
        ≠ simplecticEuler (constForce ⟨2, 0, 0⟩) ⟨Vec3.zero, Vec3.zero⟩ 2 0 3
    ∧ (simplecticEuler (constForce ⟨2, 0, 0⟩) ⟨Vec3.zero, Vec3.zero⟩ 2 0 3).position
        - (explicitEuler (constForce ⟨2, 0, 0⟩) ⟨Vec3.zero, Vec3.zero⟩ 2 0 3).position
      = ((Vec3.mk 2 0 0).divS 2).scale (3 * 3) := by
  refine ⟨?_, by norm_num [explicitEuler, simplecticEuler, constForce, Vec3.zero],
    by norm_num [explicitEuler, simplecticEuler, constForce, Vec3.zero]⟩
  intro f s mass t dt hf
  simp [explicitEuler, simplecticEuler, hf, Vec3.zero, Vec3.zero_divS,
    Vec3.scale_zero, Vec3.add_zero]

/-- Witness for C6: the zero-force branch of the theorem applied to the
constant zero force at a concrete state. -/
theorem euler_variants_zero_force_agree_witness :
    explicitEuler (constForce Vec3.zero) ⟨⟨1, 2, 3⟩, ⟨4, 5, 6⟩⟩ 1 0 1
      = simplecticEuler (constForce Vec3.zero) ⟨⟨1, 2, 3⟩, ⟨4, 5, 6⟩⟩ 1 0 1 :=
  euler_variants_zero_force_agree_constant_force_diverge.1
    (constForce Vec3.zero) ⟨⟨1, 2, 3⟩, ⟨4, 5, 6⟩⟩ 1 0 1 (fun _ _ _ => rfl)

/-- C10: with dt = 0 every integrator returns the input state unchanged,
for every force, state, positive mass, time, and (for rungeKutta4) every
content of the static force cell. -/
theorem integrators_zero_dt_identity :
    ∀ (f : Physics.Force) (s : generalizedVector) (mass t : ℚ)
      (statics : RK4Statics), 0 < mass →
      explicitEuler f s mass t 0 = s
      ∧ simplecticEuler f s mass t 0 = s
      ∧ (rungeKutta4 f s mass t 0 statics).1 = s := by
  intro f s mass t statics hm
  refine ⟨?_, ?_, ?_⟩ <;>
    cases s <;>
      simp [explicitEuler, simplecticEuler, rungeKutta4, Vec3.scale_zero,
        Vec3.add_zero]

/-- Witness for C10: the theorem applied at the unit-spring force, a
concrete state, mass 1, time 5 and a fresh static cell. -/
theorem integrators_zero_dt_identity_witness :
    (0 : ℚ) < 1 ∧
      (explicitEuler hookeUnitForce ⟨⟨1, 0, 0⟩, ⟨0, 1, 0⟩⟩ 1 5 0 = ⟨⟨1, 0, 0⟩, ⟨0, 1, 0⟩⟩
      ∧ simplecticEuler hookeUnitForce ⟨⟨1, 0, 0⟩, ⟨0, 1, 0⟩⟩ 1 5 0 = ⟨⟨1, 0, 0⟩, ⟨0, 1, 0⟩⟩
      ∧ (rungeKutta4 hookeUnitForce ⟨⟨1, 0, 0⟩, ⟨0, 1, 0⟩⟩ 1 5 0 ⟨none⟩).1
          = ⟨⟨1, 0, 0⟩, ⟨0, 1, 0⟩⟩) :=
  ⟨by norm_num,
   integrators_zero_dt_identity hookeUnitForce ⟨⟨1, 0, 0⟩, ⟨0, 1, 0⟩⟩ 1 5 ⟨none⟩
     (by norm_num)⟩

/-- C4: simplecticEuler returns the velocity computed from the pre-step
position and velocity, and a position computed from the returned
(already updated) velocity; whenever dt is nonzero and the force is
nonzero the returned position genuinely differs from the explicit-Euler
position built from the pre-step velocity. -/
theorem simplecticEuler_velocity_first :
    ∀ (f : Physics.Force) (s : generalizedVector) (mass t dt : ℚ), 0 < mass →
      (simplecticEuler f s mass t dt).velocity
        = s.velocity + ((f.computeForce s.position s.velocity t).divS mass).scale dt
      ∧ (simplecticEuler f s mass t dt).position
        = s.position + ((simplecticEuler f s mass t dt).velocity).scale dt
      ∧ (dt ≠ 0 → f.computeForce s.position s.velocity t ≠ Vec3.zero →
          (simplecticEuler f s mass t dt).position
            ≠ s.position + s.velocity.scale dt) := by
  intro f s mass t dt hm
  refine ⟨rfl, rfl, ?_⟩
  intro hdt hF heq
  have heq2 : s.position
      + (s.velocity.scale dt
          + (((f.computeForce s.position s.velocity t).divS mass).scale dt).scale dt)
      = s.position + s.velocity.scale dt := by
    calc s.position
        + (s.velocity.scale dt
            + (((f.computeForce s.position s.velocity t).divS mass).scale dt).scale dt)
        = s.position
            + (s.velocity
                + ((f.computeForce s.position s.velocity t).divS mass).scale dt).scale dt := by
          rw [Vec3.add_scale]
      _ = s.position + s.velocity.scale dt := heq
  have heq3 : s.position
      + (s.velocity.scale dt
          + (((f.computeForce s.position s.velocity t).divS mass).scale dt).scale dt)
      = s.position + (s.velocity.scale dt + Vec3.zero) := by
    rw [Vec3.add_zero]; exact heq2
  have h4 : (((f.computeForce s.position s.velocity t).divS mass).scale dt).scale dt
      = Vec3.zero := Vec3.add_left_cancel (Vec3.add_left_cancel heq3)
  rw [Vec3.scale_eq_zero_iff _ _ hdt, Vec3.scale_eq_zero_iff _ _ hdt,
    Vec3.divS_eq_zero_iff _ _ (ne_of_gt hm)] at h4
  exact hF h4

/-- Witness for C4: the velocity conjunct of the theorem applied to a
constant force at a concrete state with mass 1, time 0, dt 1. -/
theorem simplecticEuler_velocity_first_witness :
    (0 : ℚ) < 1 ∧
      (simplecticEuler (constForce ⟨1, 0, 0⟩) ⟨⟨0, 0, 0⟩, ⟨0, 0, 0⟩⟩ 1 0 1).velocity
        = ⟨0, 0, 0⟩
          + (((constForce ⟨1, 0, 0⟩).computeForce ⟨0, 0, 0⟩ ⟨0, 0, 0⟩ 0).divS 1).scale 1 :=
  ⟨by norm_num,
   (simplecticEuler_velocity_first (constForce ⟨1, 0, 0⟩) ⟨⟨0, 0, 0⟩, ⟨0, 0, 0⟩⟩ 1 0 1
     (by norm_num)).1⟩

theorem foldl_add_vec (l : List ℕ) (g : ℕ → Vec3) (a : Vec3) :
    l.foldl (fun acc p => acc + g p) a
      = a + (l.map g).foldr Vec3.add Vec3.zero := by
  induction l generalizing a with
  | nil => cases a; simp [Vec3.zero]
  | cons q rest ih =>
    simp only [List.foldl_cons, List.map_cons, List.foldr_cons]
    rw [ih, Vec3.add_assoc]
    rfl

theorem foldl_add_rat (l : List ℕ) (g : ℕ → ℚ) (a : ℚ) :
    l.foldl (fun acc p => acc + g p) a = a + (l.map g).sum := by
  induction l generalizing a with
  | nil => simp
  | cons q rest ih => simp [ih, add_assoc]

/-- C5: the composite's computeForce is exactly the vector sum of the
registered members' independent evaluations at the same arguments, its
computeEnergy the scalar sum of the members' energies, and with zero
registered forces both return zero. -/
theorem compositeForce_sums_members :
    ∀ (env : ℕ → Physics.Force) (c : Physics.CompositeForce)
      (pos vel : Vec3) (t : ℚ),
      Physics.CompositeForce.computeForce env c pos vel t
        = (c.forces.map (fun p => (env p).computeForce pos vel t)).foldr
            Vec3.add Vec3.zero
      ∧ Physics.CompositeForce.computeEnergy env c pos vel t
        = (c.forces.map (fun p => (env p).computeEnergy pos vel t)).sum
      ∧ Physics.CompositeForce.computeForce env ⟨[]⟩ pos vel t = Vec3.zero
      ∧ Physics.CompositeForce.computeEnergy env ⟨[]⟩ pos vel t = 0 := by
  intro env c pos vel t
  refine ⟨?_, ?_, rfl, rfl⟩
  · unfold Physics.CompositeForce.computeForce
    rw [foldl_add_vec, Vec3.zero_add]
  · unfold Physics.CompositeForce.computeEnergy
    rw [foldl_add_rat, zero_add]

theorem removeFirst_not_mem (l : List ℕ) (p : ℕ) (h : p ∉ l) :
    Physics.removeFirst l p = l := by
  induction l with
  | nil => rfl
  | cons a rest ih =>
    have ha : a ≠ p := fun hap => h (by simp [hap])
    have hr : p ∉ rest := fun hm => h (List.mem_cons_of_mem a hm)
    simp [Physics.removeFirst, ha, ih hr]

/-- C9: CompositeForce registration bookkeeping — registering the same
force object twice makes it contribute twice to both sums; removeForce
erases exactly the first matching registration; removeForce on an
unregistered force leaves the composite unchanged (and, being a total
function, signals no error). -/
theorem compositeForce_registration_semantics :
    (∀ (env : ℕ → Physics.Force) (c : Physics.CompositeForce) (p : ℕ)
        (pos vel : Vec3) (t : ℚ),
        Physics.CompositeForce.computeForce env ((c.addForce p).addForce p) pos vel t
          = Physics.CompositeForce.computeForce env c pos vel t
            + ((env p).computeForce pos vel t + (env p).computeForce pos vel t)
        ∧ Physics.CompositeForce.computeEnergy env ((c.addForce p).addForce p) pos vel t
          = Physics.CompositeForce.computeEnergy env c pos vel t
            + ((env p).computeEnergy pos vel t + (env p).computeEnergy pos vel t))
    ∧ (∀ (l1 l2 : List ℕ) (p : ℕ), p ∉ l1 →
        Physics.removeFirst (l1 ++ p :: l2) p = l1 ++ l2)
    ∧ (∀ (c : Physics.CompositeForce) (p : ℕ), p ∉ c.forces →
        c.removeForce p = c) := by
  refine ⟨?_, ?_, ?_⟩
  · intro env c p pos vel t
    constructor
    · simp only [Physics.CompositeForce.computeForce,
        Physics.CompositeForce.addForce, List.foldl_append, List.foldl_cons,
        List.foldl_nil]
      rw [Vec3.add_assoc]
    · simp only [Physics.CompositeForce.computeEnergy,
        Physics.CompositeForce.addForce, List.foldl_append, List.foldl_cons,
        List.foldl_nil]
      rw [add_assoc]
  · intro l1 l2 p h
    induction l1 with
    | nil => simp [Physics.removeFirst]
    | cons a rest ih =>
      have ha : a ≠ p := fun hap => h (by simp [hap])
      have hr : p ∉ rest := fun hm => h (List.mem_cons_of_mem a hm)
      simp [Physics.removeFirst, ha, ih hr]
  · intro c p h
    cases c with
    | mk l =>
      simp [Physics.CompositeForce.removeForce, removeFirst_not_mem l p h]

/-- Witness for C9: the unregistered-removal branch of the theorem at a
concrete composite. -/
theorem compositeForce_registration_semantics_witness :
    (1 : ℕ) ∉ ([0] : List ℕ)
    ∧ Physics.CompositeForce.removeForce ⟨[0]⟩ 1 = (⟨[0]⟩ : Physics.CompositeForce) :=
  ⟨by decide, compositeForce_registration_semantics.2.2 ⟨[0]⟩ 1 (by decide)⟩

theorem filter_ne_of_count_zero (l : List ℕ) (p : ℕ) (h : l.count p = 0) :
    l.filter (fun q => q != p) = l := by
  induction l with
  | nil => rfl
  | cons a rest ih =>
    rw [List.count_cons] at h
    have ha : a ≠ p := by
      intro hap
      simp [hap] at h
    have hr : rest.count p = 0 := by
      rcases Nat.eq_zero_of_add_eq_zero_right h with h0
      exact h0
    have hb : (a != p) = true := by simp [ha]
    simp [List.filter, hb, ih hr]

theorem removeFirst_count_one (l : List ℕ) (p : ℕ) (h : l.count p = 1) :
    Physics.removeFirst l p = l.filter (fun q => q != p) := by
  induction l with
  | nil => rfl
  | cons a rest ih =>
    rw [List.count_cons] at h
    by_cases hap : a = p
    · subst hap
      simp only [beq_self_eq_true, if_true] at h
      have hr0 : rest.count a = 0 := by omega
      have hb : (a != a) = false := by simp
      simp [Physics.removeFirst, List.filter, hb,
        filter_ne_of_count_zero rest a hr0]
    · have hr : rest.count p = 1 := by simpa [hap] using h
      have hb : (a != p) = true := by simp [hap]
      simp [Physics.removeFirst, hap, List.filter, hb, ih hr]

/-- Counterexample for C8: register the same force object twice
(address 0 twice), then removeForce it once — computeForce still
returns that force's contribution, so it does not equal the sum the
composite would return had the force never been registered. -/
theorem removeForce_duplicate_counterexample :
    ¬ (Physics.CompositeForce.computeForce envTwo
        (Physics.CompositeForce.removeForce ⟨[0, 0]⟩ 0) Vec3.zero Vec3.zero 0
      = Physics.CompositeForce.computeForce envTwo ⟨[]⟩ Vec3.zero Vec3.zero 0) := by
  norm_num [Physics.CompositeForce.computeForce,
    Physics.CompositeForce.removeForce, Physics.removeFirst, envTwo, Vec3.zero]

/-- C8 amended: for a force registered exactly once, removeForce
followed by computeForce or computeEnergy returns the sum over the
composite with every registration of that force excluded — the sum it
would return had the force never been registered.  (With duplicate
registrations removeForce erases only the first one, which is the
counterexample.) -/
theorem removeForce_single_registration_excludes :
    ∀ (env : ℕ → Physics.Force) (c : Physics.CompositeForce) (p : ℕ),
      c.forces.count p = 1 →
      ∀ (pos vel : Vec3) (t : ℚ),
        Physics.CompositeForce.computeForce env (c.removeForce p) pos vel t
          = Physics.CompositeForce.computeForce env
              ⟨c.forces.filter (fun q => q != p)⟩ pos vel t
        ∧ Physics.CompositeForce.computeEnergy env (c.removeForce p) pos vel t
          = Physics.CompositeForce.computeEnergy env
              ⟨c.forces.filter (fun q => q != p)⟩ pos vel t := by
  intro env c p hp pos vel t
  have hl : Physics.removeFirst c.forces p = c.forces.filter (fun q => q != p) :=
    removeFirst_count_one c.forces p hp
  constructor <;>
    simp [Physics.CompositeForce.computeForce,
      Physics.CompositeForce.computeEnergy, Physics.CompositeForce.removeForce, hl]

/-- Witness for C8's amended theorem: a composite holding addresses
[0, 1], with address 0 registered exactly once, evaluated after
removing address 0. -/
theorem removeForce_single_registration_excludes_witness :
    ([0, 1] : List ℕ).count 0 = 1
    ∧ Physics.CompositeForce.computeForce envTwo
        (Physics.CompositeForce.removeForce ⟨[0, 1]⟩ 0) Vec3.zero Vec3.zero 0
      = Physics.CompositeForce.computeForce envTwo
          ⟨([0, 1] : List ℕ).filter (fun q => q != 0)⟩ Vec3.zero Vec3.zero 0 :=
  ⟨by decide,
   (removeForce_single_registration_excludes envTwo ⟨[0, 1]⟩ 0 (by decide)
     Vec3.zero Vec3.zero 0).1⟩

/-- C3: at position equal to the anchor point the divisor
pow(length(r), 3) of ElectricForce::computeForce and
GravitationalForce::computeForce is zero, so the code divides by zero
and silently produces the non-finite NaN/Inf vector (embedded as
`none`) — it raises no SingularityError, and no error path exists in
the code; at every other position the evaluation succeeds with a
finite vector. -/
theorem inverse_square_singularity_not_an_error :
    ∀ (len : Vec3 → ℚ), (∀ v, len v = 0 ↔ v = Vec3.zero) →
      ∀ (ef : Physics.ElectricForce) (gf : Physics.GravitationalForce)
        (vel : Vec3) (t : ℚ),
        Physics.ElectricForce.computeForce len ef ef.anchorPoint vel t = none
        ∧ Physics.GravitationalForce.computeForce len gf gf.anchorPoint vel t = none
        ∧ (∀ pos, pos ≠ ef.anchorPoint →
            (Physics.ElectricForce.computeForce len ef pos vel t).isSome = true)
        ∧ (∀ pos, pos ≠ gf.anchorPoint →
            (Physics.GravitationalForce.computeForce len gf pos vel t).isSome = true) := by
  intro len hlen ef gf vel t
  have hz : ∀ (a : Vec3), len (a - a) = 0 := fun a => (hlen _).mpr (Vec3.sub_self a)
  have hnz : ∀ (pos a : Vec3), pos ≠ a → (len (pos - a)) ^ 3 ≠ 0 := by
    intro pos a hne
    refine pow_ne_zero 3 ?_
    intro h0
    exact hne ((Vec3.sub_eq_zero_iff pos a).mp ((hlen _).mp h0))
  have hz3 : ∀ (a : Vec3), (len (a - a)) ^ 3 = 0 := by
    intro a
    rw [hz a]
    exact zero_pow (by norm_num)
  refine ⟨?_, ?_, ?_, ?_⟩
  · simp only [Physics.ElectricForce.computeForce]
    rw [if_pos (hz3 ef.anchorPoint)]
  · simp only [Physics.GravitationalForce.computeForce]
    rw [if_pos (hz3 gf.anchorPoint)]
  · intro pos hpos
    simp only [Physics.ElectricForce.computeForce]
    rw [if_neg (hnz pos ef.anchorPoint hpos)]
    rfl
  · intro pos hpos
    simp only [Physics.GravitationalForce.computeForce]
    rw [if_neg (hnz pos gf.anchorPoint hpos)]
    rfl

/-- A concrete stand-in for glm::length in the witness below: any
function vanishing exactly at the zero vector fits the hypothesis the
singularity theorem puts on the length. -/
def lenW : Vec3 → ℚ := fun v => if v = Vec3.zero then 0 else 1

theorem lenW_zero_iff : ∀ v, lenW v = 0 ↔ v = Vec3.zero := by
  intro v
  by_cases h : v = Vec3.zero <;> simp [lenW, h]

/-- Witness for C3: the electric-force conjunct of the theorem at
charges 1, 1 and anchor at the origin, evaluated at the anchor. -/
theorem inverse_square_singularity_witness :
    Physics.ElectricForce.computeForce lenW ⟨1, 1, Vec3.zero⟩ Vec3.zero Vec3.zero 0
      = none :=
  (inverse_square_singularity_not_an_error lenW lenW_zero_iff ⟨1, 1, Vec3.zero⟩
    ⟨1, 1, Vec3.zero⟩ Vec3.zero 0).1
